import Mathlib

/-!
Verification of the trading-journal application (`app.py`, CSV variant, and the
`updateSummary` JavaScript function of the document-store variant).

Numbers are modelled as rationals.  A record's `P/L` field, which in the code
arrives as a CSV string and is passed through
`pd.to_numeric(..., errors='coerce').fillna(0)`, is modelled as `Option ℚ`:
`some q` for a numerically parseable value `q`, `none` for a missing or
non-numeric value.  The coercion `plValue` below is exactly the
`to_numeric`+`fillna(0)` step.
-/

/-- One row of the trading journal.  The CSV schema has 14 columns; only the
sequence number (`Sl No.`) and profit-or-loss (`P/L`) are ever inspected by the
functions under verification.  The remaining columns are free-form strings that
flow through untouched; `script` stands in for them. -/
structure TradeRecord where
  slNo : ℕ
  script : String
  pl : Option ℚ
deriving Repr, DecidableEq

/-- `pd.to_numeric(df['P/L'], errors='coerce').fillna(0)` applied to one
record: a parseable value stays itself, a missing or non-numeric one becomes
`0`. -/
def plValue (r : TradeRecord) : ℚ := r.pl.getD 0

/-- The numeric `P/L` column of `df = pd.DataFrame(data)` after the coercion
step. -/
def pls (data : List TradeRecord) : List ℚ := data.map plValue

/-- `Series.max` over a running accumulator: `List.foldl max`. -/
def foldMax (a : ℚ) (ps : List ℚ) : ℚ := ps.foldl max a

/-- `Series.min` over a running accumulator: `List.foldl min`. -/
def foldMin (a : ℚ) (ps : List ℚ) : ℚ := ps.foldl min a

/-- `df['P/L'].max()`: maximum of a (nonempty, in all uses) list; `0` on the
empty list, which the code never reaches because of its emptiness guard. -/
def maxList : List ℚ → ℚ
  | [] => 0
  | p :: ps => foldMax p ps

/-- `df['P/L'].min()`, analogously. -/
def minList : List ℚ → ℚ
  | [] => 0
  | p :: ps => foldMin p ps

/-- Round to the nearest integer, ties to the even integer: the rounding used
by Python's fixed-point float formatting `f"{x:.2f}"`. -/
def roundHalfEven (q : ℚ) : ℤ :=
  if q - ⌊q⌋ < 1/2 then ⌊q⌋
  else if 1/2 < q - ⌊q⌋ then ⌊q⌋ + 1
  else if ⌊q⌋ % 2 = 0 then ⌊q⌋ else ⌊q⌋ + 1

/-- Two-digit decimal field, left-padded with `0`. -/
def pad2 (n : ℕ) : String :=
  if n < 10 then "0" ++ toString n else toString n

/-- Python `f"{x:.2f}"` for the nonnegative rate values the code formats:
round `x` to hundredths (ties to even) and print with exactly two decimal
places. -/
def fmt2 (q : ℚ) : String :=
  let n : ℕ := (roundHalfEven (q * 100)).toNat
  toString (n / 100) ++ "." ++ pad2 (n % 100)

/-- `total_trades = len(df)`. -/
def total_trades (data : List TradeRecord) : ℕ := data.length

/-- `winning_trades = len(df[df['P/L'] > 0])`. -/
def winning_trades (data : List TradeRecord) : ℕ :=
  ((pls data).filter (fun p => 0 < p)).length

/-- `losing_trades = len(df[df['P/L'] < 0])`. -/
def losing_trades (data : List TradeRecord) : ℕ :=
  ((pls data).filter (fun p => p < 0)).length

/-- `break_even_trades = len(df[df['P/L'] == 0])`. -/
def break_even_trades (data : List TradeRecord) : ℕ :=
  ((pls data).filter (fun p => p = 0)).length

/-- `win_rate = (winning_trades / total_trades) * 100 if total_trades > 0 else 0`. -/
def win_rate (data : List TradeRecord) : ℚ :=
  if 0 < total_trades data then
    ((winning_trades data : ℚ) / (total_trades data : ℚ)) * 100
  else 0

/-- `lose_rate = (losing_trades / total_trades) * 100 if total_trades > 0 else 0`. -/
def lose_rate (data : List TradeRecord) : ℚ :=
  if 0 < total_trades data then
    ((losing_trades data : ℚ) / (total_trades data : ℚ)) * 100
  else 0

/-- `largest_win = df['P/L'].max() if winning_trades > 0 else 0`. -/
def largest_win (data : List TradeRecord) : ℚ :=
  if 0 < winning_trades data then maxList (pls data) else 0

/-- `largest_loss = df['P/L'].min() if losing_trades > 0 else 0`. -/
def largest_loss (data : List TradeRecord) : ℚ :=
  if 0 < losing_trades data then minList (pls data) else 0

/-- `total_pl = df['P/L'].sum()`. -/
def total_pl (data : List TradeRecord) : ℚ := (pls data).sum

/-- The dictionary returned by `calculate_summary`; field names follow its
keys ("Total Number of Trades", ..., "Total P/L"). -/
structure Summary where
  totalTrades : ℕ
  winningTrades : ℕ
  losingTrades : ℕ
  breakEvenTrades : ℕ
  winRate : String
  loseRate : String
  largestWin : ℚ
  largestLoss : ℚ
  totalPL : ℚ
deriving Repr, DecidableEq

/-- `calculate_summary` from `app.py`: the early return of the all-zero
dictionary on empty input, and otherwise the aggregation over the coerced
`P/L` column. -/
def calculate_summary (data : List TradeRecord) : Summary :=
  if data.isEmpty then
    { totalTrades := 0, winningTrades := 0, losingTrades := 0, breakEvenTrades := 0,
      winRate := "0.00", loseRate := "0.00",
      largestWin := 0, largestLoss := 0, totalPL := 0 }
  else
    { totalTrades := total_trades data
      winningTrades := winning_trades data
      losingTrades := losing_trades data
      breakEvenTrades := break_even_trades data
      winRate := fmt2 (win_rate data)
      loseRate := fmt2 (lose_rate data)
      largestWin := largest_win data
      largestLoss := largest_loss data
      totalPL := total_pl data }

/-- The caller-visible effect of `calculate_summary(data)`: the function builds
a fresh `pd.DataFrame(data)` (which copies the records' values) and mutates
only that copy, so after the call the caller still holds `data` unchanged. -/
def calculate_summary_run (data : List TradeRecord) : Summary × List TradeRecord :=
  (calculate_summary data, data)

/-- The on-disk journal: `none` when `trading_journal.csv` does not exist,
`some rows` for an existing file whose data rows (below the header) are
`rows`. -/
def get_journal_data : Option (List TradeRecord) → List TradeRecord
  | some rows => rows
  | none => []

/-- The `POST` branch of `index()`: compute
`sl_no = len(get_journal_data()) + 1`, build the new entry with that
sequence number and the submitted form fields, and append it as a new row of
the CSV file. -/
def post_index (file : Option (List TradeRecord)) (form : TradeRecord) :
    Option (List TradeRecord) :=
  let rows := get_journal_data file
  some (rows ++ [{ form with slNo := rows.length + 1 }])

/-- Store states reachable from the initial state (the file freshly created
with only its header row) by form submissions. -/
inductive Reachable : Option (List TradeRecord) → Prop
  | init : Reachable (some [])
  | step : ∀ s r, Reachable s → Reachable (post_index s r)

/-! The `updateSummary(trades)` function of the document-store variant
(JavaScript).  A trade's `pl` field may be `undefined` or non-numeric; the
code reads it as `(t.pl || 0)` in the sum, and in the comparisons
`t.pl > max` / `t.pl < min` a non-numeric `pl` never wins against the
accumulator (which starts at `0` and keeps the sign of its start), so using
the same `plValue` coercion in the folds is extensionally faithful. -/

/-- JavaScript `Number.prototype.toFixed(2)`: round to hundredths, ties
towards the larger candidate (ECMA-262 picks the larger `n` on a tie), and
print with two decimal places.  Mathlib's `round` is exactly this
tie-breaking rule. -/
def toFixed2 (q : ℚ) : String :=
  let n : ℤ := round (q * 100)
  if n < 0 then
    "-" ++ toString (n.natAbs / 100) ++ "." ++ pad2 (n.natAbs % 100)
  else
    toString (n.toNat / 100) ++ "." ++ pad2 (n.toNat % 100)

/-- `trades.reduce((sum, t) => sum + (t.pl || 0), 0)`. -/
def jsTotalPL (trades : List TradeRecord) : ℚ :=
  trades.foldl (fun sum t => sum + plValue t) 0

/-- `trades.reduce((max, t) => t.pl > max ? t.pl : max, 0)`. -/
def jsLargestWin (trades : List TradeRecord) : ℚ :=
  trades.foldl (fun mx t => if mx < plValue t then plValue t else mx) 0

/-- `trades.reduce((min, t) => t.pl < min ? t.pl : min, 0)`. -/
def jsLargestLoss (trades : List TradeRecord) : ℚ :=
  trades.foldl (fun mn t => if plValue t < mn then plValue t else mn) 0

/-- The values `updateSummary` writes into the DOM (the numeric total P/L is
kept as a number here; the DOM shows `totalPL.toFixed(2)`). -/
structure JSummary where
  totalTrades : ℕ
  winningTrades : ℕ
  losingTrades : ℕ
  winRate : String
  totalPL : ℚ
  largestWin : String
  largestLoss : String
deriving Repr, DecidableEq

/-- `updateSummary(trades)` from the document-store variant. -/
def updateSummary (trades : List TradeRecord) : JSummary :=
  { totalTrades := trades.length
    winningTrades := (trades.filter (fun t => 0 < plValue t)).length
    losingTrades := (trades.filter (fun t => plValue t < 0)).length
    winRate :=
      if 0 < trades.length then
        toFixed2 ((((trades.filter (fun t => 0 < plValue t)).length : ℚ) /
          (trades.length : ℚ)) * 100)
      else "0.00"
    totalPL := jsTotalPL trades
    largestWin := toFixed2 (jsLargestWin trades)
    largestLoss := toFixed2 (jsLargestLoss trades) }

/-- The spec's reading of "total P/L equals the arithmetic sum of each
record's P/L, with non-numeric treated as 0": a direct recursive sum, to be
compared with the column sum the code computes. -/
def sumPL : List TradeRecord → ℚ
  | [] => 0
  | r :: rs => plValue r + sumPL rs

/-! ### Helper lemmas -/

lemma fmt2_zero : fmt2 0 = "0.00" := by
  norm_num [fmt2, roundHalfEven, pad2]
  rfl

/-- The two branches of `calculate_summary` agree on the empty list (every
aggregate vanishes there), so the result is always the aggregation record. -/
lemma calculate_summary_eq (data : List TradeRecord) :
    calculate_summary data =
      { totalTrades := total_trades data, winningTrades := winning_trades data,
        losingTrades := losing_trades data, breakEvenTrades := break_even_trades data,
        winRate := fmt2 (win_rate data), loseRate := fmt2 (lose_rate data),
        largestWin := largest_win data, largestLoss := largest_loss data,
        totalPL := total_pl data } := by
  cases data with
  | nil =>
      simp [calculate_summary, total_trades, winning_trades, losing_trades,
        break_even_trades, win_rate, lose_rate, largest_win, largest_loss,
        total_pl, pls, fmt2_zero]
  | cons r rs => rfl

lemma count_partition (ps : List ℚ) :
    (ps.filter (fun p => 0 < p)).length + (ps.filter (fun p => p < 0)).length +
      (ps.filter (fun p => p = 0)).length = ps.length := by
  induction ps with
  | nil => rfl
  | cons p ps ih =>
      rcases lt_trichotomy p 0 with h | h | h
      · simp only [List.filter_cons, decide_eq_true_eq]
        rw [if_neg (by simpa using not_lt_of_gt h), if_pos (by simpa using h),
          if_neg (by simpa using h.ne)]
        simp only [List.length_cons]
        omega
      · subst h
        simp only [List.filter_cons, decide_eq_true_eq]
        rw [if_neg (by simp), if_neg (by simp), if_pos (by simp)]
        simp only [List.length_cons]
        omega
      · simp only [List.filter_cons, decide_eq_true_eq]
        rw [if_pos (by simpa using h), if_neg (by simpa using not_lt_of_gt h),
          if_neg (by simpa using (ne_of_gt h))]
        simp only [List.length_cons]
        omega

lemma le_foldMax (a : ℚ) (ps : List ℚ) : a ≤ foldMax a ps := by
  induction ps generalizing a with
  | nil => exact le_rfl
  | cons p ps ih => exact le_trans (le_max_left a p) (ih (max a p))

lemma mem_le_foldMax (a : ℚ) {p : ℚ} {ps : List ℚ} (hp : p ∈ ps) :
    p ≤ foldMax a ps := by
  induction ps generalizing a with
  | nil => cases hp
  | cons q ps ih =>
      rcases List.mem_cons.mp hp with h | h
      · subst h
        exact le_trans (le_max_right a p) (le_foldMax (max a p) ps)
      · exact ih (max a q) h

lemma foldMax_mem_or (a : ℚ) (ps : List ℚ) :
    foldMax a ps = a ∨ foldMax a ps ∈ ps := by
  induction ps generalizing a with
  | nil => exact Or.inl rfl
  | cons p ps ih =>
      rcases ih (max a p) with h | h
      · rcases max_choice a p with hm | hm
        · exact Or.inl (by rw [show foldMax a (p :: ps) = foldMax (max a p) ps from rfl, h, hm])
        · exact Or.inr (by rw [show foldMax a (p :: ps) = foldMax (max a p) ps from rfl, h, hm]; exact List.mem_cons_self p ps)
      · exact Or.inr (List.mem_cons_of_mem p h)

lemma foldMin_le (a : ℚ) (ps : List ℚ) : foldMin a ps ≤ a := by
  induction ps generalizing a with
  | nil => exact le_rfl
  | cons p ps ih => exact le_trans (ih (min a p)) (min_le_left a p)

lemma foldMin_le_mem (a : ℚ) {p : ℚ} {ps : List ℚ} (hp : p ∈ ps) :
    foldMin a ps ≤ p := by
  induction ps generalizing a with
  | nil => cases hp
  | cons q ps ih =>
      rcases List.mem_cons.mp hp with h | h
      · subst h
        exact le_trans (foldMin_le (min a p) ps) (min_le_right a p)
      · exact ih (min a q) h

lemma foldMin_mem_or (a : ℚ) (ps : List ℚ) :
    foldMin a ps = a ∨ foldMin a ps ∈ ps := by
  induction ps generalizing a with
  | nil => exact Or.inl rfl
  | cons p ps ih =>
      rcases ih (min a p) with h | h
      · rcases min_choice a p with hm | hm
        · exact Or.inl (by rw [show foldMin a (p :: ps) = foldMin (min a p) ps from rfl, h, hm])
        · exact Or.inr (by rw [show foldMin a (p :: ps) = foldMin (min a p) ps from rfl, h, hm]; exact List.mem_cons_self p ps)
      · exact Or.inr (List.mem_cons_of_mem p h)

lemma maxList_mem {ps : List ℚ} (h : ps ≠ []) : maxList ps ∈ ps := by
  cases ps with
  | nil => exact absurd rfl h
  | cons p ps =>
      rcases foldMax_mem_or p ps with h1 | h1
      · rw [show maxList (p :: ps) = foldMax p ps from rfl, h1]
        exact List.mem_cons_self p ps
      · exact List.mem_cons_of_mem p h1

lemma le_maxList {p : ℚ} {ps : List ℚ} (hp : p ∈ ps) : p ≤ maxList ps := by
  cases ps with
  | nil => cases hp
  | cons q ps =>
      rcases List.mem_cons.mp hp with h | h
      · subst h
        exact le_foldMax p ps
      · exact mem_le_foldMax q h

lemma minList_mem {ps : List ℚ} (h : ps ≠ []) : minList ps ∈ ps := by
  cases ps with
  | nil => exact absurd rfl h
  | cons p ps =>
      rcases foldMin_mem_or p ps with h1 | h1
      · rw [show minList (p :: ps) = foldMin p ps from rfl, h1]
        exact List.mem_cons_self p ps
      · exact List.mem_cons_of_mem p h1

lemma minList_le {p : ℚ} {ps : List ℚ} (hp : p ∈ ps) : minList ps ≤ p := by
  cases ps with
  | nil => cases hp
  | cons q ps =>
      rcases List.mem_cons.mp hp with h | h
      · subst h
        exact foldMin_le p ps
      · exact foldMin_le_mem q h

/-- Core of claim C1: when some element of the column is positive, the global
maximum coincides with the maximum over the positive bucket. -/
lemma maxList_filter_pos {ps : List ℚ} {w : ℚ} (hw : w ∈ ps) (hw0 : 0 < w) :
    maxList ps = maxList (ps.filter (fun p => 0 < p)) := by
  have hne : ps ≠ [] := List.ne_nil_of_mem hw
  have hM_mem : maxList ps ∈ ps := maxList_mem hne
  have hM_pos : 0 < maxList ps := lt_of_lt_of_le hw0 (le_maxList hw)
  have hM_filter : maxList ps ∈ ps.filter (fun p => 0 < p) :=
    List.mem_filter.mpr ⟨hM_mem, by simpa using hM_pos⟩
  have hfne : ps.filter (fun p => 0 < p) ≠ [] := List.ne_nil_of_mem hM_filter
  have h1 : maxList ps ≤ maxList (ps.filter (fun p => 0 < p)) := le_maxList hM_filter
  have h2 : maxList (ps.filter (fun p => 0 < p)) ≤ maxList ps :=
    le_maxList (List.mem_of_mem_filter (maxList_mem hfne))
  exact le_antisymm h1 h2

/-- Dual of `maxList_filter_pos` for the negative bucket. -/
lemma minList_filter_neg {ps : List ℚ} {w : ℚ} (hw : w ∈ ps) (hw0 : w < 0) :
    minList ps = minList (ps.filter (fun p => p < 0)) := by
  have hne : ps ≠ [] := List.ne_nil_of_mem hw
  have hM_mem : minList ps ∈ ps := minList_mem hne
  have hM_neg : minList ps < 0 := lt_of_le_of_lt (minList_le hw) hw0
  have hM_filter : minList ps ∈ ps.filter (fun p => p < 0) :=
    List.mem_filter.mpr ⟨hM_mem, by simpa using hM_neg⟩
  have hfne : ps.filter (fun p => p < 0) ≠ [] := List.ne_nil_of_mem hM_filter
  have h1 : minList (ps.filter (fun p => p < 0)) ≤ minList ps := minList_le hM_filter
  have h2 : minList ps ≤ minList (ps.filter (fun p => p < 0)) :=
    minList_le (List.mem_of_mem_filter (minList_mem hfne))
  exact le_antisymm h2 h1

/-- The winner-count guard of the code is equivalent to the existence of a
winner. -/
lemma winning_trades_pos_iff (data : List TradeRecord) :
    0 < winning_trades data ↔ ∃ p ∈ pls data, 0 < p := by
  unfold winning_trades
  rw [List.length_pos]
  constructor
  · intro h
    rcases List.exists_mem_of_ne_nil _ h with ⟨p, hp⟩
    exact ⟨p, List.mem_of_mem_filter hp, by simpa using (List.mem_filter.mp hp).2⟩
  · rintro ⟨p, hp, hp0⟩
    exact List.ne_nil_of_mem (List.mem_filter.mpr ⟨hp, by simpa using hp0⟩)

/-- The loser-count guard is equivalent to the existence of a loser. -/
lemma losing_trades_pos_iff (data : List TradeRecord) :
    0 < losing_trades data ↔ ∃ p ∈ pls data, p < 0 := by
  unfold losing_trades
  rw [List.length_pos]
  constructor
  · intro h
    rcases List.exists_mem_of_ne_nil _ h with ⟨p, hp⟩
    exact ⟨p, List.mem_of_mem_filter hp, by simpa using (List.mem_filter.mp hp).2⟩
  · rintro ⟨p, hp, hp0⟩
    exact List.ne_nil_of_mem (List.mem_filter.mpr ⟨hp, by simpa using hp0⟩)

/-- The JavaScript `reduce` for the largest win is `foldMax` over the coerced
column, seeded with `0`. -/
lemma jsLargestWin_eq (trades : List TradeRecord) :
    jsLargestWin trades = foldMax 0 (pls trades) := by
  unfold jsLargestWin foldMax pls
  rw [List.foldl_map]
  congr 1
  funext mx t
  rcases le_or_lt (plValue t) mx with h | h
  · rw [if_neg (not_lt_of_ge h), max_eq_left h]
  · rw [if_pos h, max_eq_right (le_of_lt h)]

/-- The JavaScript `reduce` for the largest loss is `foldMin` over the coerced
column, seeded with `0`. -/
lemma jsLargestLoss_eq (trades : List TradeRecord) :
    jsLargestLoss trades = foldMin 0 (pls trades) := by
  unfold jsLargestLoss foldMin pls
  rw [List.foldl_map]
  congr 1
  funext mn t
  rcases le_or_lt mn (plValue t) with h | h
  · rw [if_neg (not_lt_of_ge h), min_eq_left h]
  · rw [if_pos h, min_eq_right (le_of_lt h)]

/-- With a positive element present, the `0`-seeded fold also lands on the
maximum over the positive bucket. -/
lemma foldMax_zero_filter_pos {ps : List ℚ} {w : ℚ} (hw : w ∈ ps) (hw0 : 0 < w) :
    foldMax 0 ps = maxList (ps.filter (fun p => 0 < p)) := by
  have hpos : 0 < foldMax 0 ps := lt_of_lt_of_le hw0 (mem_le_foldMax 0 hw)
  have hmem : foldMax 0 ps ∈ ps := by
    rcases foldMax_mem_or 0 ps with h | h
    · exact absurd h (by simpa using ne_of_gt hpos)
    · exact h
  have hfil : foldMax 0 ps ∈ ps.filter (fun p => 0 < p) :=
    List.mem_filter.mpr ⟨hmem, by simpa using hpos⟩
  have h1 : foldMax 0 ps ≤ maxList (ps.filter (fun p => 0 < p)) := le_maxList hfil
  have h2 : maxList (ps.filter (fun p => 0 < p)) ≤ foldMax 0 ps :=
    mem_le_foldMax 0 (List.mem_of_mem_filter (maxList_mem (List.ne_nil_of_mem hfil)))
  exact le_antisymm h1 h2

/-- Without positive elements the `0`-seeded fold stays at `0`. -/
lemma foldMax_zero_of_nonpos {ps : List ℚ} (h : ∀ p ∈ ps, ¬0 < p) :
    foldMax 0 ps = 0 := by
  rcases foldMax_mem_or 0 ps with h1 | h1
  · exact h1
  · exact le_antisymm (not_lt.mp (h _ h1)) (le_foldMax 0 ps)

/-- With a negative element present, the `0`-seeded fold lands on the minimum
over the negative bucket. -/
lemma foldMin_zero_filter_neg {ps : List ℚ} {w : ℚ} (hw : w ∈ ps) (hw0 : w < 0) :
    foldMin 0 ps = minList (ps.filter (fun p => p < 0)) := by
  have hneg : foldMin 0 ps < 0 := lt_of_le_of_lt (foldMin_le_mem 0 hw) hw0
  have hmem : foldMin 0 ps ∈ ps := by
    rcases foldMin_mem_or 0 ps with h | h
    · exact absurd h (by simpa using ne_of_lt hneg)
    · exact h
  have hfil : foldMin 0 ps ∈ ps.filter (fun p => p < 0) :=
    List.mem_filter.mpr ⟨hmem, by simpa using hneg⟩
  have h1 : minList (ps.filter (fun p => p < 0)) ≤ foldMin 0 ps := minList_le hfil
  have h2 : foldMin 0 ps ≤ minList (ps.filter (fun p => p < 0)) :=
    foldMin_le_mem 0 (List.mem_of_mem_filter (minList_mem (List.ne_nil_of_mem hfil)))
  exact le_antisymm h2 h1

/-- Without negative elements the `0`-seeded fold stays at `0`. -/
lemma foldMin_zero_of_nonneg {ps : List ℚ} (h : ∀ p ∈ ps, ¬p < 0) :
    foldMin 0 ps = 0 := by
  rcases foldMin_mem_or 0 ps with h1 | h1
  · exact h1
  · exact le_antisymm (foldMin_le 0 ps) (not_lt.mp (h _ h1))

/-- The specification's recursive sum agrees with the column sum. -/
lemma sumPL_eq (data : List TradeRecord) : sumPL data = (pls data).sum := by
  induction data with
  | nil => rfl
  | cons r rs ih => simp [sumPL, pls, ih]

lemma foldl_add_plValue (a : ℚ) (data : List TradeRecord) :
    data.foldl (fun sum t => sum + plValue t) a = a + (pls data).sum := by
  induction data generalizing a with
  | nil => simp [pls]
  | cons r rs ih => simp [pls, ih, add_assoc]

/-- The JavaScript running sum agrees with the column sum. -/
lemma jsTotalPL_eq (trades : List TradeRecord) :
    jsTotalPL trades = (pls trades).sum := by
  unfold jsTotalPL
  rw [foldl_add_plValue]
  ring

lemma winning_trades_le (data : List TradeRecord) :
    winning_trades data ≤ data.length := by
  calc winning_trades data ≤ (pls data).length := List.length_filter_le _ _
    _ = data.length := List.length_map _ _

lemma losing_trades_le (data : List TradeRecord) :
    losing_trades data ≤ data.length := by
  calc losing_trades data ≤ (pls data).length := List.length_filter_le _ _
    _ = data.length := List.length_map _ _

lemma win_add_lose_le (data : List TradeRecord) :
    winning_trades data + losing_trades data ≤ data.length := by
  have h := count_partition (pls data)
  have hlen : (pls data).length = data.length := List.length_map _ _
  unfold winning_trades losing_trades
  omega

/-- A concrete journal: `P/L` values 100, -50, 0 — the worked example of the
specification. -/
def ex3 : List TradeRecord :=
  [⟨1, "AAPL", some 100⟩, ⟨2, "TCS", some (-50)⟩, ⟨3, "INFY", some 0⟩]

/-! ### Claims -/

/-- C5: `calculate_summary` applied to the empty journal returns the summary
in which every count is 0, both rate strings are "0.00", both extreme trades
are 0 and the total P/L is 0. -/
theorem spec_C5_empty_summary :
    calculate_summary [] =
      { totalTrades := 0, winningTrades := 0, losingTrades := 0, breakEvenTrades := 0,
        winRate := "0.00", loseRate := "0.00",
        largestWin := 0, largestLoss := 0, totalPL := 0 } := rfl

/-- C7: when the store file does not exist, `get_journal_data` returns the
empty sequence instead of raising, and the summary computed from it is the
all-zero empty summary. -/
theorem spec_C7_missing_file :
    get_journal_data none = [] ∧
    calculate_summary (get_journal_data none) =
      { totalTrades := 0, winningTrades := 0, losingTrades := 0, breakEvenTrades := 0,
        winRate := "0.00", loseRate := "0.00",
        largestWin := 0, largestLoss := 0, totalPL := 0 } :=
  ⟨rfl, rfl⟩

/-- C3: the winning, losing and break-even counts returned by
`calculate_summary` always sum to the total trade count. -/
theorem spec_C3_counts_partition (data : List TradeRecord) :
    (calculate_summary data).winningTrades + (calculate_summary data).losingTrades +
      (calculate_summary data).breakEvenTrades = (calculate_summary data).totalTrades := by
  rw [calculate_summary_eq]
  show winning_trades data + losing_trades data + break_even_trades data = total_trades data
  have h := count_partition (pls data)
  have hlen : (pls data).length = data.length := List.length_map _ _
  unfold winning_trades losing_trades break_even_trades total_trades
  omega

/-- C4: the total P/L returned by `calculate_summary` (and the running total
of `updateSummary`) equals the arithmetic sum of each record's P/L, and a
record whose P/L field is non-numeric or missing contributes 0 to that sum. -/
theorem spec_C4_total_pl (data : List TradeRecord) :
    (calculate_summary data).totalPL = sumPL data ∧
    (updateSummary data).totalPL = sumPL data ∧
    ∀ r : TradeRecord, r.pl = none → plValue r = 0 := by
  refine ⟨?_, ?_, ?_⟩
  · rw [calculate_summary_eq]
    show total_pl data = sumPL data
    rw [sumPL_eq]
    rfl
  · show jsTotalPL data = sumPL data
    rw [jsTotalPL_eq, sumPL_eq]
  · intro r h
    simp [plValue, h]

/-- Witness for C4 at the worked example plus a record with missing P/L. -/
theorem spec_C4_total_pl_witness :
    (calculate_summary ex3).totalPL = 50 ∧ plValue ⟨4, "X", none⟩ = 0 := by
  refine ⟨?_, (spec_C4_total_pl ex3).2.2 ⟨4, "X", none⟩ rfl⟩
  rw [(spec_C4_total_pl ex3).1]
  norm_num [sumPL, ex3, plValue]

/-- C8: `calculate_summary` has no caller-visible side effects — it leaves
both the journal file and the caller's record list exactly as they were — and
it is deterministic: equal inputs yield equal summaries. -/
theorem spec_C8_pure (data : List TradeRecord) :
    (calculate_summary_run data).2 = data ∧
    (calculate_summary_run data).1 = calculate_summary data ∧
    ∀ d2 : List TradeRecord, data = d2 → calculate_summary data = calculate_summary d2 :=
  ⟨rfl, rfl, fun _ h => by rw [h]⟩

/-- Witness for C8 at the worked example. -/
theorem spec_C8_pure_witness :
    (calculate_summary_run ex3).2 = ex3 ∧ calculate_summary ex3 = calculate_summary ex3 :=
  ⟨(spec_C8_pure ex3).1, (spec_C8_pure ex3).2.2 ex3 rfl⟩

/-- C1: for every non-empty journal, the largest winning trade reported by
`calculate_summary` — and the value computed by the `updateSummary` reduce —
equals the maximum P/L over the winners when a winner exists and 0 otherwise,
and dually the largest losing trade equals the minimum P/L over the losers
when a loser exists and 0 otherwise; consequently the largest win is ≥ 0 and
the largest loss is ≤ 0.  The crux is that the code's global `max`/`min`,
guarded only by the winner/loser count, coincides with the within-bucket
extremum. -/
theorem spec_C1_largest_trades (data : List TradeRecord) (hne : data ≠ []) :
    ((∃ p ∈ pls data, 0 < p) →
      (calculate_summary data).largestWin = maxList ((pls data).filter (fun p => 0 < p)) ∧
      jsLargestWin data = maxList ((pls data).filter (fun p => 0 < p))) ∧
    ((¬∃ p ∈ pls data, 0 < p) →
      (calculate_summary data).largestWin = 0 ∧ jsLargestWin data = 0) ∧
    ((∃ p ∈ pls data, p < 0) →
      (calculate_summary data).largestLoss = minList ((pls data).filter (fun p => p < 0)) ∧
      jsLargestLoss data = minList ((pls data).filter (fun p => p < 0))) ∧
    ((¬∃ p ∈ pls data, p < 0) →
      (calculate_summary data).largestLoss = 0 ∧ jsLargestLoss data = 0) ∧
    0 ≤ (calculate_summary data).largestWin ∧ (calculate_summary data).largestLoss ≤ 0 ∧
    0 ≤ jsLargestWin data ∧ jsLargestLoss data ≤ 0 := by
  have hW : (calculate_summary data).largestWin = largest_win data := by
    rw [calculate_summary_eq]
  have hL : (calculate_summary data).largestLoss = largest_loss data := by
    rw [calculate_summary_eq]
  refine ⟨?_, ?_, ?_, ?_, ?_, ?_, ?_, ?_⟩
  · rintro ⟨w, hw, hw0⟩
    constructor
    · rw [hW]
      unfold largest_win
      rw [if_pos ((winning_trades_pos_iff data).mpr ⟨w, hw, hw0⟩)]
      exact maxList_filter_pos hw hw0
    · rw [jsLargestWin_eq]
      exact foldMax_zero_filter_pos hw hw0
  · intro h
    have h0 : ¬0 < winning_trades data := fun hc =>
      h ((winning_trades_pos_iff data).mp hc)
    push_neg at h
    constructor
    · rw [hW]
      unfold largest_win
      rw [if_neg h0]
    · rw [jsLargestWin_eq]
      exact foldMax_zero_of_nonpos (fun p hp => not_lt.mpr (h p hp))
  · rintro ⟨w, hw, hw0⟩
    constructor
    · rw [hL]
      unfold largest_loss
      rw [if_pos ((losing_trades_pos_iff data).mpr ⟨w, hw, hw0⟩)]
      exact minList_filter_neg hw hw0
    · rw [jsLargestLoss_eq]
      exact foldMin_zero_filter_neg hw hw0
  · intro h
    have h0 : ¬0 < losing_trades data := fun hc =>
      h ((losing_trades_pos_iff data).mp hc)
    push_neg at h
    constructor
    · rw [hL]
      unfold largest_loss
      rw [if_neg h0]
    · rw [jsLargestLoss_eq]
      exact foldMin_zero_of_nonneg (fun p hp => not_lt.mpr (h p hp))
  · rw [hW]
    unfold largest_win
    by_cases hpos : 0 < winning_trades data
    · rw [if_pos hpos]
      rcases (winning_trades_pos_iff data).mp hpos with ⟨w, hw, hw0⟩
      exact le_of_lt (lt_of_lt_of_le hw0 (le_maxList hw))
    · rw [if_neg hpos]
  · rw [hL]
    unfold largest_loss
    by_cases hneg : 0 < losing_trades data
    · rw [if_pos hneg]
      rcases (losing_trades_pos_iff data).mp hneg with ⟨w, hw, hw0⟩
      exact le_of_lt (lt_of_le_of_lt (minList_le hw) hw0)
    · rw [if_neg hneg]
  · rw [jsLargestWin_eq]
    exact le_foldMax 0 (pls data)
  · rw [jsLargestLoss_eq]
    exact foldMin_le 0 (pls data)

/-- Witness for C1 at the worked example: the winner bucket peaks at 100 and
the loser bucket bottoms at -50. -/
theorem spec_C1_largest_trades_witness :
    (calculate_summary ex3).largestWin = 100 ∧ (calculate_summary ex3).largestLoss = -50 ∧
    jsLargestWin ex3 = 100 ∧ jsLargestLoss ex3 = -50 := by
  have h := spec_C1_largest_trades ex3 (by decide)
  have hw := h.1 ⟨100, by decide, by decide⟩
  have hl := h.2.2.1 ⟨-50, by decide, by decide⟩
  refine ⟨?_, ?_, ?_, ?_⟩
  · rw [hw.1]; decide
  · rw [hl.1]; decide
  · rw [hw.2]; decide
  · rw [hl.2]; decide

/-- C2: the win-rate string is (winning count / total count) × 100 formatted
to two decimal places ("0.00" for an empty journal), the lose rate uses the
same formula over losing trades, the `updateSummary` variant computes its win
rate the same way via `toFixed(2)`, and on P/L values [100, -50, 0] both
produce the string "33.33". -/
theorem spec_C2_rates (data : List TradeRecord) (hne : data ≠ []) :
    (calculate_summary data).winRate =
      fmt2 (((winning_trades data : ℚ) / (data.length : ℚ)) * 100) ∧
    (calculate_summary data).loseRate =
      fmt2 (((losing_trades data : ℚ) / (data.length : ℚ)) * 100) ∧
    (updateSummary data).winRate =
      toFixed2 ((((data.filter (fun t => 0 < plValue t)).length : ℚ) /
        (data.length : ℚ)) * 100) ∧
    (calculate_summary []).winRate = "0.00" ∧
    (calculate_summary []).loseRate = "0.00" ∧
    (updateSummary []).winRate = "0.00" ∧
    (calculate_summary ex3).winRate = "33.33" ∧
    (updateSummary ex3).winRate = "33.33" := by
  have hlen : 0 < data.length := List.length_pos.mpr hne
  have hwr : ∀ d : List TradeRecord, d ≠ [] →
      (calculate_summary d).winRate =
        fmt2 (((winning_trades d : ℚ) / (d.length : ℚ)) * 100) := by
    intro d hd
    rw [calculate_summary_eq]
    show fmt2 (win_rate d) = _
    unfold win_rate
    rw [if_pos (show 0 < total_trades d from List.length_pos.mpr hd)]
    rfl
  have hjr : ∀ d : List TradeRecord, d ≠ [] →
      (updateSummary d).winRate =
        toFixed2 ((((d.filter (fun t => 0 < plValue t)).length : ℚ) /
          (d.length : ℚ)) * 100) := by
    intro d hd
    show (if 0 < d.length then _ else _) = _
    rw [if_pos (List.length_pos.mpr hd)]
  refine ⟨hwr data hne, ?_, hjr data hne, rfl, rfl, rfl, ?_, ?_⟩
  · rw [calculate_summary_eq]
    show fmt2 (lose_rate data) = _
    unfold lose_rate
    rw [if_pos (show 0 < total_trades data from hlen)]
    rfl
  · rw [hwr ex3 (by decide)]
    have h1 : winning_trades ex3 = 1 := by decide
    have h3 : ex3.length = 3 := rfl
    rw [h1, h3]
    norm_num [fmt2, roundHalfEven, pad2]
    rfl
  · rw [hjr ex3 (by decide)]
    have h1 : (ex3.filter (fun t => 0 < plValue t)).length = 1 := by decide
    have h3 : ex3.length = 3 := rfl
    rw [h1, h3]
    norm_num [toFixed2, round_eq, pad2]
    rfl

/-- Witness for C2: both variants report "33.33" on the worked example. -/
theorem spec_C2_rates_witness :
    (calculate_summary ex3).winRate = "33.33" ∧ (updateSummary ex3).winRate = "33.33" := by
  have h := spec_C2_rates ex3 (by decide)
  exact ⟨h.2.2.2.2.2.2.1, h.2.2.2.2.2.2.2⟩

/-- C9: a record whose P/L field is non-numeric or empty (coerced to `none`)
is classified as a break-even trade: inserting it anywhere raises the
break-even count by exactly one, leaves the winning and losing counts
unchanged, and leaves the total P/L unchanged, because the coercion to zero
happens before the sign buckets are computed. -/
theorem spec_C9_nonnumeric_breakeven (pre post : List TradeRecord) (r : TradeRecord)
    (h : r.pl = none) :
    (calculate_summary (pre ++ r :: post)).breakEvenTrades =
      (calculate_summary (pre ++ post)).breakEvenTrades + 1 ∧
    (calculate_summary (pre ++ r :: post)).winningTrades =
      (calculate_summary (pre ++ post)).winningTrades ∧
    (calculate_summary (pre ++ r :: post)).losingTrades =
      (calculate_summary (pre ++ post)).losingTrades ∧
    (calculate_summary (pre ++ r :: post)).totalPL =
      (calculate_summary (pre ++ post)).totalPL := by
  have hr : plValue r = 0 := by simp [plValue, h]
  simp only [calculate_summary_eq]
  refine ⟨?_, ?_, ?_, ?_⟩
  · show break_even_trades _ = break_even_trades _ + 1
    simp [break_even_trades, pls, List.filter_append, hr]
    omega
  · show winning_trades _ = winning_trades _
    simp [winning_trades, pls, List.filter_append, hr]
  · show losing_trades _ = losing_trades _
    simp [losing_trades, pls, List.filter_append, hr]
  · show total_pl _ = total_pl _
    simp [total_pl, pls, hr]

/-- Witness for C9: appending a record with missing P/L to the worked
example. -/
theorem spec_C9_nonnumeric_breakeven_witness :
    (⟨4, "X", (none : Option ℚ)⟩ : TradeRecord).pl = none ∧
    (calculate_summary (ex3 ++ ⟨4, "X", none⟩ :: [])).breakEvenTrades =
      (calculate_summary (ex3 ++ [])).breakEvenTrades + 1 ∧
    (calculate_summary (ex3 ++ ⟨4, "X", none⟩ :: [])).winningTrades =
      (calculate_summary (ex3 ++ [])).winningTrades ∧
    (calculate_summary (ex3 ++ ⟨4, "X", none⟩ :: [])).losingTrades =
      (calculate_summary (ex3 ++ [])).losingTrades ∧
    (calculate_summary (ex3 ++ ⟨4, "X", none⟩ :: [])).totalPL =
      (calculate_summary (ex3 ++ [])).totalPL :=
  ⟨rfl, spec_C9_nonnumeric_breakeven ex3 [] ⟨4, "X", none⟩ rfl⟩

/-- C10: the numeric win and lose rates that `calculate_summary` formats into
its summary each lie between 0 and 100, and their sum is at most 100. -/
theorem spec_C10_rate_bounds (data : List TradeRecord) :
    0 ≤ win_rate data ∧ win_rate data ≤ 100 ∧
    0 ≤ lose_rate data ∧ lose_rate data ≤ 100 ∧
    win_rate data + lose_rate data ≤ 100 := by
  unfold win_rate lose_rate
  by_cases h : 0 < total_trades data
  · rw [if_pos h, if_pos h]
    have ht : (0:ℚ) < (total_trades data : ℚ) := by exact_mod_cast h
    have hw : (winning_trades data : ℚ) ≤ (total_trades data : ℚ) := by
      exact_mod_cast winning_trades_le data
    have hl : (losing_trades data : ℚ) ≤ (total_trades data : ℚ) := by
      exact_mod_cast losing_trades_le data
    have hwl : (winning_trades data : ℚ) + (losing_trades data : ℚ) ≤
        (total_trades data : ℚ) := by
      exact_mod_cast win_add_lose_le data
    refine ⟨by positivity, ?_, by positivity, ?_, ?_⟩
    · calc (winning_trades data : ℚ) / (total_trades data : ℚ) * 100
          ≤ 1 * 100 := by
            apply mul_le_mul_of_nonneg_right ((div_le_one ht).mpr hw)
            norm_num
        _ = 100 := by norm_num
    · calc (losing_trades data : ℚ) / (total_trades data : ℚ) * 100
          ≤ 1 * 100 := by
            apply mul_le_mul_of_nonneg_right ((div_le_one ht).mpr hl)
            norm_num
        _ = 100 := by norm_num
    · have heq : (winning_trades data : ℚ) / (total_trades data : ℚ) * 100 +
          (losing_trades data : ℚ) / (total_trades data : ℚ) * 100 =
          ((winning_trades data : ℚ) + (losing_trades data : ℚ)) /
            (total_trades data : ℚ) * 100 := by
        field_simp
        ring
      rw [heq]
      calc ((winning_trades data : ℚ) + (losing_trades data : ℚ)) /
            (total_trades data : ℚ) * 100
          ≤ 1 * 100 := by
            apply mul_le_mul_of_nonneg_right ((div_le_one ht).mpr hwl)
            norm_num
        _ = 100 := by norm_num
  · rw [if_neg h, if_neg h]
    norm_num

/-- The sequence-number invariant: position `i` of the journal holds
`Sl No. = i + 1`. -/
def SlInv (rows : List TradeRecord) : Prop :=
  ∀ (i : ℕ) (h : i < rows.length), (rows.get ⟨i, h⟩).slNo = i + 1

lemma slInv_append {rows : List TradeRecord} (hinv : SlInv rows)
    {x : TradeRecord} (hx : x.slNo = rows.length + 1) : SlInv (rows ++ [x]) := by
  intro i h
  rw [List.get_eq_getElem]
  by_cases hi : i < rows.length
  · rw [List.getElem_append_left hi]
    exact hinv i hi
  · have hlen : i = rows.length := by
      simp only [List.length_append, List.length_singleton] at h
      omega
    rw [List.getElem_concat_length rows x i hlen]
    rw [hx, hlen]

/-- Every reachable journal satisfies the sequence-number invariant. -/
lemma reachable_slInv {s : Option (List TradeRecord)} (hR : Reachable s) :
    SlInv (get_journal_data s) := by
  induction hR with
  | init =>
      intro i h
      simp [get_journal_data] at h
  | step s r _ ih => exact slInv_append ih rfl

lemma slInv_le {rows : List TradeRecord} (hinv : SlInv rows) :
    ∀ r2 ∈ rows, r2.slNo ≤ rows.length := by
  intro r2 hr
  rcases List.mem_iff_getElem.mp hr with ⟨i, hi, rfl⟩
  have h : rows[i].slNo = i + 1 := hinv i hi
  omega

lemma slInv_pairwise {rows : List TradeRecord} (hinv : SlInv rows) :
    (rows.map TradeRecord.slNo).Pairwise (· < ·) := by
  rw [List.pairwise_iff_getElem]
  intro i j hi hj hij
  have hi2 : i < rows.length := by simpa using hi
  have hj2 : j < rows.length := by simpa using hj
  rw [List.getElem_map, List.getElem_map]
  have e1 : rows[i].slNo = i + 1 := hinv i hi2
  have e2 : rows[j].slNo = j + 1 := hinv j hj2
  omega

/-- C6: on every reachable store, a form submission appends a record whose
assigned sequence number is the current record count plus one; that number
differs from every prior record's number, re-listing returns the new record
last with that number, and the listed sequence numbers are strictly
increasing (hence unique). -/
theorem spec_C6_append_seq (s : Option (List TradeRecord)) (r : TradeRecord)
    (hR : Reachable s) :
    get_journal_data (post_index s r) =
      get_journal_data s ++ [{ r with slNo := (get_journal_data s).length + 1 }] ∧
    (∀ r2 ∈ get_journal_data s, r2.slNo ≠ (get_journal_data s).length + 1) ∧
    (get_journal_data (post_index s r)).getLast? =
      some { r with slNo := (get_journal_data s).length + 1 } ∧
    ((get_journal_data (post_index s r)).map TradeRecord.slNo).Pairwise (· < ·) := by
  have hinv : SlInv (get_journal_data s) := reachable_slInv hR
  have hinv2 : SlInv (get_journal_data (post_index s r)) :=
    reachable_slInv (Reachable.step s r hR)
  refine ⟨rfl, ?_, ?_, slInv_pairwise hinv2⟩
  · intro r2 hr2
    have := slInv_le hinv r2 hr2
    omega
  · show (get_journal_data s ++
      [{ r with slNo := (get_journal_data s).length + 1 }]).getLast? = _
    rw [List.getLast?_concat]

/-- Witness for C6: the first submission to a fresh store gets sequence
number 1 and is listed last. -/
theorem spec_C6_append_seq_witness :
    get_journal_data (post_index (some []) ⟨0, "TCS", some 5⟩) =
      [⟨1, "TCS", some 5⟩] ∧
    (get_journal_data (post_index (some []) ⟨0, "TCS", some 5⟩)).getLast? =
      some ⟨1, "TCS", some 5⟩ := by
  have h := spec_C6_append_seq (some []) ⟨0, "TCS", some 5⟩ Reachable.init
  exact ⟨h.1, h.2.2.1⟩
